import Mathlib

/-!
# Verification of the PromisePool bounded task scheduler

Shallow embedding of `src/PromisePool.ts`.  The scheduler owns the mutable
counters `completed`, `ongoing`, `started`, the flags `ended` and `draining`,
and the `errors` list.  Tasks resolve asynchronously; each resolution handler
(and each dispatch step `trigger`) runs atomically on the shared state, since
JavaScript callbacks are single-threaded and run to completion.

The embedding adds ghost fields that record the observable history:
* `pending`      — indices launched but not yet resolved (in launch order);
* `invoked`      — every index passed to `task`, in invocation order;
* `resolvedList` — every resolved index, in resolution order;
* `outcomes`     — every delivery made through `resolve`/`reject`, in order.

A run is the initial computation `initRun` (the constructor body: the
`for` loop of `trigger()` calls followed by the `count === 0` shortcut)
followed by an arbitrary interleaving of task resolutions, modelled by the
`Step` relation: any pending task may resolve next, succeeding or failing
according to the configuration's `fail` predicate.
-/

namespace PromisePool

/-- The `OnError` strategy of the source: `'abort' | 'drain' | 'continue'`. -/
inductive OnError : Type where
  | abort : OnError
  | drain : OnError
  | continue_ : OnError
deriving DecidableEq

/-- A delivery made through the promise executor's `resolve` / `reject`.
`rejectedSingle` is `reject(e)` (the abort path); `rejectedAggregate` is
`reject(new AggregateError(errors, msg))`. -/
inductive Outcome (E : Type) : Type where
  | success : Outcome E
  | rejectedSingle (e : E) : Outcome E
  | rejectedAggregate (errs : List E) (msg : String) : Outcome E
deriving DecidableEq

/-- The pool configuration.  The caller-supplied `task` is abstracted by the
outcome it eventually produces at each index: `fail i = true` means the
promise of index `i` rejects, with value `err i`; otherwise it fulfills.
The scheduler discards fulfillment values, so this interface is complete.
`concurrency` is an `Int` so that non-positive values can be analysed. -/
structure Config (E : Type) where
  concurrency : Int
  count : Nat
  fail : Nat → Bool
  err : Nat → E
  onError : OnError

/-- The scheduler's state: the source's six mutable variables plus the ghost
history fields described in the module docstring. -/
structure PoolState (E : Type) where
  completed : Nat
  ongoing : Nat
  started : Nat
  ended : Bool
  draining : Bool
  errors : List E
  pending : List Nat
  invoked : List Nat
  resolvedList : List Nat
  outcomes : List (Outcome E)
deriving DecidableEq

variable {E : Type}

/-- The message of the `AggregateError`: `` `${errors.length} task(s) failed` ``. -/
def aggMsg (n : Nat) : String := toString n ++ " task(s) failed"

/-- `checkCompletion` from the source: if `completed >= count`, or the pool is
draining and everything started has finished, deliver the terminal outcome
(an `AggregateError` when `errors` is non-empty, success otherwise) and set
`ended`.  Guarded by `ended` on entry. -/
def checkCompletion (cfg : Config E) (s : PoolState E) : PoolState E :=
  if s.ended then s
  else if cfg.count ≤ s.completed ∨
      (s.draining = true ∧ s.started = (s.completed + s.errors.length) + s.ongoing ∧ s.ongoing = 0) then
    if 0 < s.errors.length then
      { s with ended := true,
               outcomes := s.outcomes ++ [Outcome.rejectedAggregate s.errors (aggMsg s.errors.length)] }
    else
      { s with ended := true, outcomes := s.outcomes ++ [Outcome.success] }
  else s

/-- The launch performed inside `trigger`'s capacity branch:
`const index = started; started += 1; ongoing += 1; task(index).then(...)`.
Registering the `.then` handlers makes `index` pending; the ghost `invoked`
records the invocation of `task`. -/
def launchOne (s : PoolState E) : PoolState E :=
  { s with started := s.started + 1, ongoing := s.ongoing + 1,
           pending := s.pending ++ [s.started], invoked := s.invoked ++ [s.started] }

/-- Fuel-indexed body of `trigger`.  The guards are those of the source, in
source order:
1. `if (ended) return`
2. `if (completed >= count) { checkCompletion(); return }`
3. `if (draining) { checkCompletion(); return }`
4. `if (completed + ongoing >= count) return`
5. `if (ongoing < concurrency) { launch; trigger() }`
The recursion of step 5 is structural on `fuel`; `trigger` below supplies
fuel `count - (completed + ongoing)`, which `trigger_eq` proves sufficient:
the fuel-exhausted branch is unreachable because step 4 already stops
whenever `completed + ongoing ≥ count`. -/
def triggerGo (cfg : Config E) : Nat → PoolState E → PoolState E
  | fuel, s =>
    if s.ended then s
    else if cfg.count ≤ s.completed then checkCompletion cfg s
    else if s.draining then checkCompletion cfg s
    else if cfg.count ≤ s.completed + s.ongoing then s
    else if (s.ongoing : Int) < cfg.concurrency then
      match fuel with
      | 0 => s
      | f + 1 => triggerGo cfg f (launchOne s)
    else s

/-- `trigger` from the source (see `triggerGo` for the body). -/
def trigger (cfg : Config E) (s : PoolState E) : PoolState E :=
  triggerGo cfg (cfg.count - (s.completed + s.ongoing)) s

/-- The fulfillment handler of the source: `ongoing -= 1; completed += 1;
trigger();`. -/
def onSuccess (cfg : Config E) (s : PoolState E) : PoolState E :=
  trigger cfg { s with ongoing := s.ongoing - 1, completed := s.completed + 1 }

/-- The `switch (onError)` of the rejection handler, run after
`ongoing -= 1; errors.push(e)`:
* `'abort'`: `if (!ended) { ended = true; reject(e); }`
* `'drain'`: `draining = true; checkCompletion();`
* `'continue'`: `completed += 1; trigger();` -/
def onErrorSwitch (cfg : Config E) (e : E) (s : PoolState E) : PoolState E :=
  if cfg.onError = OnError.abort then
    if s.ended = false then
      { s with ended := true, outcomes := s.outcomes ++ [Outcome.rejectedSingle e] }
    else s
  else if cfg.onError = OnError.drain then
    checkCompletion cfg { s with draining := true }
  else
    trigger cfg { s with completed := s.completed + 1 }

/-- The rejection handler of the source: `ongoing -= 1; errors.push(e)`,
then the `switch (onError)`. -/
def onFailure (cfg : Config E) (e : E) (s : PoolState E) : PoolState E :=
  onErrorSwitch cfg e { s with ongoing := s.ongoing - 1, errors := s.errors ++ [e] }

/-- Resolution of the pending task `i`: the `.then(onFulfilled, onRejected)`
handlers of the source, run atomically.  The ghost `pending` / `resolvedList`
fields record that `i` resolved. -/
def resolveAt (cfg : Config E) (i : Nat) (s : PoolState E) : PoolState E :=
  if cfg.fail i then
    onFailure cfg (cfg.err i)
      { s with pending := s.pending.erase i, resolvedList := s.resolvedList ++ [i] }
  else
    onSuccess cfg
      { s with pending := s.pending.erase i, resolvedList := s.resolvedList ++ [i] }

/-- The state at the start of the executor body: all counters zero. -/
def init0 : PoolState E :=
  { completed := 0, ongoing := 0, started := 0, ended := false, draining := false,
    errors := [], pending := [], invoked := [], resolvedList := [], outcomes := [] }

/-- `n` successive calls of `trigger()`. -/
def iterTrigger (cfg : Config E) : Nat → PoolState E → PoolState E
  | 0, s => s
  | n + 1, s => iterTrigger cfg n (trigger cfg s)

/-- The synchronous part of a run:
`for (let i = 0; i < concurrency && i < count; i++) trigger();`
(`min concurrency.toNat count` iterations) followed by
`if (count === 0) resolve();`. -/
def initRun (cfg : Config E) : PoolState E :=
  let s := iterTrigger cfg (min cfg.concurrency.toNat cfg.count) init0
  if cfg.count = 0 then { s with outcomes := s.outcomes ++ [Outcome.success] } else s

/-- Asynchronous steps: any pending task may resolve next. -/
inductive Step (cfg : Config E) : PoolState E → PoolState E → Prop where
  | resolve (i : Nat) (s : PoolState E) (h : i ∈ s.pending) : Step cfg s (resolveAt cfg i s)

/-- The states a run of `cfg` can be observed in, between atomic steps. -/
inductive Reachable (cfg : Config E) : PoolState E → Prop where
  | init : Reachable cfg (initRun cfg)
  | step {s s' : PoolState E} : Reachable cfg s → Step cfg s s' → Reachable cfg s'

/-- Zero or more asynchronous steps. -/
def Star (cfg : Config E) : PoolState E → PoolState E → Prop :=
  Relation.ReflTransGen (Step cfg)

end PromisePool

namespace PromisePool
variable {E : Type}

/-- Fuel irrelevance: any two sufficient fuels give the same result. -/
theorem triggerGo_congr (cfg : Config E) :
    ∀ f₁ f₂ (s : PoolState E), cfg.count - (s.completed + s.ongoing) ≤ f₁ →
      cfg.count - (s.completed + s.ongoing) ≤ f₂ →
      triggerGo cfg f₁ s = triggerGo cfg f₂ s := by
  intro f₁
  induction f₁ with
  | zero =>
    intro f₂ s h1 h2
    rw [triggerGo.eq_def, triggerGo.eq_def]
    by_cases he : s.ended = true
    · simp only [if_pos he]
    · simp only [if_neg he]
      by_cases hc : cfg.count ≤ s.completed
      · simp only [if_pos hc]
      · simp only [if_neg hc]
        by_cases hd : s.draining = true
        · simp only [if_pos hd]
        · simp only [if_neg hd]
          have hco : cfg.count ≤ s.completed + s.ongoing := by omega
          simp only [if_pos hco]
  | succ f ih =>
    intro f₂ s h1 h2
    rw [triggerGo.eq_def, triggerGo.eq_def]
    by_cases he : s.ended = true
    · simp only [if_pos he]
    · simp only [if_neg he]
      by_cases hc : cfg.count ≤ s.completed
      · simp only [if_pos hc]
      · simp only [if_neg hc]
        by_cases hd : s.draining = true
        · simp only [if_pos hd]
        · simp only [if_neg hd]
          by_cases hco : cfg.count ≤ s.completed + s.ongoing
          · simp only [if_pos hco]
          · simp only [if_neg hco]
            by_cases hcap : (s.ongoing : Int) < cfg.concurrency
            · simp only [if_pos hcap]
              cases f₂ with
              | zero => omega
              | succ g =>
                show triggerGo cfg f (launchOne s) = triggerGo cfg g (launchOne s)
                apply ih <;> (simp only [launchOne]; omega)
            · simp only [if_neg hcap]

/-- The dispatch step satisfies the source's recursion unconditionally: the
fuel supplied by `trigger` never runs out, because the `completed + ongoing ≥
count` guard stops the recursion before the fuel (`count - (completed +
ongoing)`) reaches zero. -/
theorem trigger_eq (cfg : Config E) (s : PoolState E) :
    trigger cfg s =
      if s.ended then s
      else if cfg.count ≤ s.completed then checkCompletion cfg s
      else if s.draining then checkCompletion cfg s
      else if cfg.count ≤ s.completed + s.ongoing then s
      else if (s.ongoing : Int) < cfg.concurrency then trigger cfg (launchOne s)
      else s := by
  conv_lhs => unfold trigger; rw [triggerGo.eq_def]
  by_cases he : s.ended = true
  · simp only [if_pos he]
  · simp only [if_neg he]
    by_cases hc : cfg.count ≤ s.completed
    · simp only [if_pos hc]
    · simp only [if_neg hc]
      by_cases hd : s.draining = true
      · simp only [if_pos hd]
      · simp only [if_neg hd]
        by_cases hco : cfg.count ≤ s.completed + s.ongoing
        · simp only [if_pos hco]
        · simp only [if_neg hco]
          by_cases hcap : (s.ongoing : Int) < cfg.concurrency
          · simp only [if_pos hcap]
            obtain ⟨k, hk⟩ : ∃ k, cfg.count - (s.completed + s.ongoing) = k + 1 :=
              ⟨cfg.count - (s.completed + s.ongoing) - 1, by omega⟩
            rw [hk]
            show triggerGo cfg k (launchOne s) = trigger cfg (launchOne s)
            unfold trigger
            apply triggerGo_congr <;> (simp only [launchOne]; omega)
          · simp only [if_neg hcap]

/-- `k` successive launches. -/
def launchIter : Nat → PoolState E → PoolState E
  | 0, s => s
  | k + 1, s => launchIter k (launchOne s)

lemma checkCompletion_of_ended (cfg : Config E) {s : PoolState E} (h : s.ended = true) :
    checkCompletion cfg s = s := by
  unfold checkCompletion
  rw [if_pos h]

/-- Everything `trigger` can do: nothing, a completion check on its input, or
a (possibly empty) burst of launches. -/
lemma triggerGo_shape (cfg : Config E) :
    ∀ f (s : PoolState E),
      (s.ended = true ∧ triggerGo cfg f s = s) ∨
      ((cfg.count ≤ s.completed ∨ s.draining = true) ∧
        triggerGo cfg f s = checkCompletion cfg s) ∨
      (∃ k, triggerGo cfg f s = launchIter k s) := by
  intro f
  induction f with
  | zero =>
    intro s
    rw [triggerGo.eq_def]
    by_cases he : s.ended = true
    · exact Or.inl ⟨he, by simp only [if_pos he]⟩
    · simp only [if_neg he]
      by_cases hc : cfg.count ≤ s.completed
      · exact Or.inr (Or.inl ⟨Or.inl hc, by simp only [if_pos hc]⟩)
      · simp only [if_neg hc]
        by_cases hd : s.draining = true
        · exact Or.inr (Or.inl ⟨Or.inr hd, by simp only [if_pos hd]⟩)
        · simp only [if_neg hd]
          by_cases hco : cfg.count ≤ s.completed + s.ongoing
          · exact Or.inr (Or.inr ⟨0, by simp only [if_pos hco]; rfl⟩)
          · simp only [if_neg hco]
            by_cases hcap : (s.ongoing : Int) < cfg.concurrency
            · exact Or.inr (Or.inr ⟨0, by simp only [if_pos hcap]; rfl⟩)
            · exact Or.inr (Or.inr ⟨0, by simp only [if_neg hcap]; rfl⟩)
  | succ f ih =>
    intro s
    rw [triggerGo.eq_def]
    by_cases he : s.ended = true
    · exact Or.inl ⟨he, by simp only [if_pos he]⟩
    · simp only [if_neg he]
      by_cases hc : cfg.count ≤ s.completed
      · exact Or.inr (Or.inl ⟨Or.inl hc, by simp only [if_pos hc]⟩)
      · simp only [if_neg hc]
        by_cases hd : s.draining = true
        · exact Or.inr (Or.inl ⟨Or.inr hd, by simp only [if_pos hd]⟩)
        · simp only [if_neg hd]
          by_cases hco : cfg.count ≤ s.completed + s.ongoing
          · exact Or.inr (Or.inr ⟨0, by simp only [if_pos hco]; rfl⟩)
          · simp only [if_neg hco]
            by_cases hcap : (s.ongoing : Int) < cfg.concurrency
            · simp only [if_pos hcap]
              rcases ih (launchOne s) with ⟨hee, _⟩ | ⟨hcc, _⟩ | ⟨k, hk⟩
              · exact absurd hee (by simpa [launchOne] using he)
              · rcases hcc with hcc | hcc
                · exact absurd hcc (by simpa [launchOne] using hc)
                · exact absurd hcc (by simpa [launchOne] using hd)
              · exact Or.inr (Or.inr ⟨k + 1, hk⟩)
            · exact Or.inr (Or.inr ⟨0, by simp only [if_neg hcap]; rfl⟩)

end PromisePool

namespace PromisePool
variable {E : Type}

lemma launchIter_frame :
    ∀ k (s : PoolState E), (launchIter k s).completed = s.completed ∧
      (launchIter k s).ended = s.ended ∧ (launchIter k s).draining = s.draining ∧
      (launchIter k s).errors = s.errors ∧ (launchIter k s).resolvedList = s.resolvedList ∧
      (launchIter k s).outcomes = s.outcomes ∧ s.started ≤ (launchIter k s).started ∧
      ∃ l, (launchIter k s).pending = s.pending ++ l := by
  intro k
  induction k with
  | zero => exact fun s => ⟨rfl, rfl, rfl, rfl, rfl, rfl, Nat.le_refl _, [], by simp [launchIter]⟩
  | succ k ih =>
    intro s
    obtain ⟨h1, h2, h3, h4, h5, h6, h7, l, h8⟩ := ih (launchOne s)
    refine ⟨h1, h2, h3, h4, h5, h6, ?_, s.started :: l, ?_⟩
    · exact le_trans (Nat.le_succ _) h7
    · show (launchIter k (launchOne s)).pending = _
      rw [h8]
      simp [launchOne]

lemma checkCompletion_frame (cfg : Config E) (s : PoolState E) :
    (checkCompletion cfg s).completed = s.completed ∧
    (checkCompletion cfg s).ongoing = s.ongoing ∧
    (checkCompletion cfg s).started = s.started ∧
    (checkCompletion cfg s).draining = s.draining ∧
    (checkCompletion cfg s).errors = s.errors ∧
    (checkCompletion cfg s).pending = s.pending ∧
    (checkCompletion cfg s).invoked = s.invoked ∧
    (checkCompletion cfg s).resolvedList = s.resolvedList := by
  unfold checkCompletion
  split
  · exact ⟨rfl, rfl, rfl, rfl, rfl, rfl, rfl, rfl⟩
  · split
    · split <;> exact ⟨rfl, rfl, rfl, rfl, rfl, rfl, rfl, rfl⟩
    · exact ⟨rfl, rfl, rfl, rfl, rfl, rfl, rfl, rfl⟩

lemma trigger_of_ended (cfg : Config E) {s : PoolState E} (h : s.ended = true) :
    trigger cfg s = s := by
  rw [trigger_eq, if_pos h]

lemma trigger_frame (cfg : Config E) (s : PoolState E) :
    (trigger cfg s).completed = s.completed ∧
    (trigger cfg s).draining = s.draining ∧
    (trigger cfg s).errors = s.errors ∧
    (trigger cfg s).resolvedList = s.resolvedList ∧
    s.started ≤ (trigger cfg s).started ∧
    ∃ l, (trigger cfg s).pending = s.pending ++ l := by
  rcases triggerGo_shape cfg (cfg.count - (s.completed + s.ongoing)) s with
    ⟨_, h⟩ | ⟨_, h⟩ | ⟨k, h⟩ <;> rw [show trigger cfg s = _ from h]
  · exact ⟨rfl, rfl, rfl, rfl, Nat.le_refl _, [], by simp⟩
  · obtain ⟨h1, _, h3, h4, h5, h6, _, h8⟩ := checkCompletion_frame cfg s
    exact ⟨h1, h4, h5, h8, le_of_eq h3.symm, [], by simp [h6]⟩
  · obtain ⟨h1, _, h3, h4, h5, _, h7, l, h8⟩ := launchIter_frame k s
    exact ⟨h1, h3, h4, h5, h7, l, h8⟩

lemma trigger_ended_of (cfg : Config E) {s : PoolState E} (h : s.ended = true) :
    (trigger cfg s).ended = true := by rw [trigger_of_ended cfg h]; exact h

lemma checkCompletion_ended_of (cfg : Config E) {s : PoolState E} (h : s.ended = true) :
    (checkCompletion cfg s).ended = true := by rw [checkCompletion_of_ended cfg h]; exact h

lemma trigger_outcomes (cfg : Config E) {s : PoolState E} (h : s.ended = true) :
    (trigger cfg s).outcomes = s.outcomes := by rw [trigger_of_ended cfg h]

lemma trigger_pending_ne (cfg : Config E) {s : PoolState E} (h : s.pending ≠ []) :
    (trigger cfg s).pending ≠ [] := by
  obtain ⟨_, _, _, _, _, l, hl⟩ := trigger_frame cfg s
  rw [hl]
  simp [h]

lemma onErrorSwitch_resolvedList (cfg : Config E) (e : E) (s : PoolState E) :
    (onErrorSwitch cfg e s).resolvedList = s.resolvedList := by
  unfold onErrorSwitch
  split
  · split <;> rfl
  · split
    · exact (checkCompletion_frame cfg _).2.2.2.2.2.2.2
    · exact (trigger_frame cfg _).2.2.2.1

lemma resolveAt_resolvedList (cfg : Config E) (i : Nat) (s : PoolState E) :
    (resolveAt cfg i s).resolvedList = s.resolvedList ++ [i] := by
  unfold resolveAt
  split
  · rw [onFailure, onErrorSwitch_resolvedList]
  · rw [onSuccess, (trigger_frame cfg _).2.2.2.1]

lemma onErrorSwitch_ended_of (cfg : Config E) (e : E) {s : PoolState E} (h : s.ended = true) :
    (onErrorSwitch cfg e s).ended = true := by
  unfold onErrorSwitch
  split
  · rw [if_neg]
    · exact h
    · simp [h]
  · split
    · exact checkCompletion_ended_of cfg h
    · exact trigger_ended_of cfg h

lemma resolveAt_ended_of (cfg : Config E) (i : Nat) {s : PoolState E} (h : s.ended = true) :
    (resolveAt cfg i s).ended = true := by
  unfold resolveAt
  split
  · exact onErrorSwitch_ended_of cfg _ h
  · exact trigger_ended_of cfg h

/-- After the run has ended, a resolving task can no longer change what was
delivered, nor launch a task: `outcomes` and `started` are frozen. -/
lemma resolveAt_frozen (cfg : Config E) (i : Nat) {s : PoolState E} (h : s.ended = true) :
    (resolveAt cfg i s).outcomes = s.outcomes ∧ (resolveAt cfg i s).started = s.started := by
  unfold resolveAt
  split
  · unfold onFailure onErrorSwitch
    split
    · rw [if_neg (by simp [h])]
      exact ⟨rfl, rfl⟩
    · split
      · rw [checkCompletion_of_ended cfg (by exact h)]
        exact ⟨rfl, rfl⟩
      · rw [trigger_of_ended cfg (by exact h)]
        exact ⟨rfl, rfl⟩
  · unfold onSuccess
    rw [trigger_of_ended cfg (by exact h)]
    exact ⟨rfl, rfl⟩

end PromisePool

namespace PromisePool
variable {E : Type}

/-- Both filtrations of a list split its length. -/
lemma filter_split_length (p : Nat → Bool) :
    ∀ l : List Nat, (l.filter p).length + (l.filter (fun j => !p j)).length = l.length := by
  intro l
  induction l with
  | nil => rfl
  | cons a l ih =>
    by_cases hp : p a = true <;> simp [List.filter_cons, hp] <;> omega

/-- The master invariant of the scheduler, established for every reachable
state of a run with `count > 0`.  The ghost `resolvedList` ties the counters
together: `completed` counts resolutions (all of them under `'continue'`,
only successful ones otherwise) and `errors` is the failure values of the
failed resolutions in resolution order. -/
structure Inv (cfg : Config E) (s : PoolState E) : Prop where
  hOng : s.ongoing = s.pending.length
  hInvk : s.invoked = List.range s.started
  hPerm : (s.resolvedList ++ s.pending).Perm (List.range s.started)
  hErr : s.errors = (s.resolvedList.filter cfg.fail).map cfg.err
  hComp : s.completed = (if cfg.onError = OnError.continue_ then s.resolvedList.length
            else (s.resolvedList.filter (fun j => !cfg.fail j)).length)
  hStart : s.started ≤ cfg.count
  hConc : (s.ongoing : Int) ≤ max cfg.concurrency 0
  hAbort : cfg.onError = OnError.abort → s.errors ≠ [] → s.ended = true
  hDrainE : cfg.onError = OnError.drain → s.errors ≠ [] → s.draining = true
  hDrainOnly : s.draining = true → cfg.onError = OnError.drain ∧ s.errors ≠ []
  hEnded : s.ended = true → cfg.count ≤ s.completed ∨
      (cfg.onError = OnError.abort ∧ s.errors ≠ []) ∨ (s.draining = true ∧ s.ongoing = 0)
  hOutN : s.ended = false → s.outcomes = []
  hOutE : s.ended = true →
      (s.errors = [] ∧ s.outcomes = [Outcome.success]) ∨
      (cfg.onError = OnError.abort ∧
        ∃ e rest, s.errors = e :: rest ∧ s.outcomes = [Outcome.rejectedSingle e]) ∨
      (cfg.onError ≠ OnError.abort ∧ s.errors ≠ [] ∧
        s.outcomes = [Outcome.rejectedAggregate s.errors (aggMsg s.errors.length)])

lemma Inv.res_pend {cfg : Config E} {s : PoolState E} (h : Inv cfg s) :
    s.resolvedList.length + s.pending.length = s.started := by
  have := h.hPerm.length_eq
  simpa [List.length_append, List.length_range] using this

lemma Inv.completed_le {cfg : Config E} {s : PoolState E} (h : Inv cfg s) :
    s.completed ≤ s.resolvedList.length := by
  rw [h.hComp]
  split
  · exact Nat.le_refl _
  · exact List.length_filter_le _ _

lemma Inv.errors_length {cfg : Config E} {s : PoolState E} (h : Inv cfg s)
    (hne : cfg.onError ≠ OnError.continue_) :
    s.completed + s.errors.length = s.resolvedList.length := by
  rw [h.hComp, if_neg hne, h.hErr, List.length_map]
  have := filter_split_length cfg.fail s.resolvedList
  omega

/-- The spec's counter identity, valid under `'abort'` and `'drain'`. -/
lemma Inv.eq_noncont {cfg : Config E} {s : PoolState E} (h : Inv cfg s)
    (hne : cfg.onError ≠ OnError.continue_) :
    s.started = s.completed + s.errors.length + s.ongoing := by
  have h1 := h.res_pend
  have h2 := h.errors_length hne
  rw [h.hOng]
  omega

/-- Under `'continue'` the failed resolutions are counted in `completed`
as well, so the identity loses the `errors.length` summand. -/
lemma Inv.eq_cont {cfg : Config E} {s : PoolState E} (h : Inv cfg s)
    (hc : cfg.onError = OnError.continue_) :
    s.started = s.completed + s.ongoing := by
  have h1 := h.res_pend
  rw [h.hComp, if_pos hc, h.hOng]
  omega

lemma Inv.pending_nil_of_completed {cfg : Config E} {s : PoolState E} (h : Inv cfg s)
    (hcc : cfg.count ≤ s.completed) : s.pending = [] := by
  have h1 := h.res_pend
  have h2 := h.completed_le
  have h3 := h.hStart
  have : s.pending.length = 0 := by omega
  exact List.eq_nil_of_length_eq_zero this

/-- A state with a pending task can only have ended through the abort path. -/
lemma Inv.ended_cases {cfg : Config E} {s : PoolState E} (h : Inv cfg s) {i : Nat}
    (hi : i ∈ s.pending) (he : s.ended = true) :
    cfg.onError = OnError.abort ∧ s.errors ≠ [] := by
  rcases h.hEnded he with hc | hab | ⟨_, hzero⟩
  · rw [h.pending_nil_of_completed hc] at hi
    cases hi
  · exact hab
  · have hlen : 0 < s.pending.length := List.length_pos.mpr (List.ne_nil_of_mem hi)
    have := h.hOng
    omega

lemma Inv.ended_false_of_pending {cfg : Config E} {s : PoolState E} (h : Inv cfg s) {i : Nat}
    (hi : i ∈ s.pending) (hne : cfg.onError ≠ OnError.abort) : s.ended = false := by
  cases he : s.ended with
  | false => rfl
  | true => exact absurd (h.ended_cases hi he).1 hne

end PromisePool

namespace PromisePool
variable {E : Type}

lemma triggerGo_zero_eq (cfg : Config E) (s : PoolState E) :
    triggerGo cfg 0 s =
      if s.ended then s
      else if cfg.count ≤ s.completed then checkCompletion cfg s
      else if s.draining then checkCompletion cfg s
      else if cfg.count ≤ s.completed + s.ongoing then s
      else if (s.ongoing : Int) < cfg.concurrency then s
      else s := rfl

lemma triggerGo_succ_eq (cfg : Config E) (f : Nat) (s : PoolState E) :
    triggerGo cfg (f + 1) s =
      if s.ended then s
      else if cfg.count ≤ s.completed then checkCompletion cfg s
      else if s.draining then checkCompletion cfg s
      else if cfg.count ≤ s.completed + s.ongoing then s
      else if (s.ongoing : Int) < cfg.concurrency then triggerGo cfg f (launchOne s)
      else s := rfl

lemma checkCompletion_inv (cfg : Config E) {s : PoolState E} (h : Inv cfg s) :
    Inv cfg (checkCompletion cfg s) := by
  unfold checkCompletion
  by_cases he : s.ended = true
  · simp only [if_pos he]; exact h
  · simp only [if_neg he]
    rw [Bool.not_eq_true] at he
    by_cases hfin : cfg.count ≤ s.completed ∨
        (s.draining = true ∧ s.started = (s.completed + s.errors.length) + s.ongoing ∧ s.ongoing = 0)
    · simp only [if_pos hfin]
      by_cases herr : 0 < s.errors.length
      · simp only [if_pos herr]
        have herrne : s.errors ≠ [] := by
          intro hnil; rw [hnil] at herr; simp at herr
        have hnab : cfg.onError ≠ OnError.abort := by
          intro hab
          have := h.hAbort hab herrne
          rw [he] at this
          cases this
        refine { hOng := h.hOng, hInvk := h.hInvk, hPerm := h.hPerm, hErr := h.hErr,
                 hComp := h.hComp, hStart := h.hStart, hConc := h.hConc,
                 hAbort := fun _ _ => rfl,
                 hDrainE := fun hd hne => h.hDrainE hd hne,
                 hDrainOnly := fun hd => h.hDrainOnly hd,
                 hEnded := fun _ => ?_, hOutN := fun hff => (nomatch hff),
                 hOutE := fun _ => ?_ }
        · rcases hfin with hcc | ⟨hdd, _, hz⟩
          · exact Or.inl hcc
          · exact Or.inr (Or.inr ⟨hdd, hz⟩)
        · refine Or.inr (Or.inr ⟨hnab, herrne, ?_⟩)
          show s.outcomes ++ _ = _
          rw [h.hOutN he]
          rfl
      · simp only [if_neg herr]
        have herrnil : s.errors = [] := by
          cases hl : s.errors with
          | nil => rfl
          | cons a l => rw [hl] at herr; simp at herr
        refine { hOng := h.hOng, hInvk := h.hInvk, hPerm := h.hPerm, hErr := h.hErr,
                 hComp := h.hComp, hStart := h.hStart, hConc := h.hConc,
                 hAbort := fun _ _ => rfl,
                 hDrainE := fun hd hne => h.hDrainE hd hne,
                 hDrainOnly := fun hd => h.hDrainOnly hd,
                 hEnded := fun _ => ?_, hOutN := fun hff => (nomatch hff),
                 hOutE := fun _ => Or.inl ⟨herrnil, ?_⟩ }
        · rcases hfin with hcc | ⟨hdd, _, hz⟩
          · exact Or.inl hcc
          · exact Or.inr (Or.inr ⟨hdd, hz⟩)
        · show s.outcomes ++ _ = _
          rw [h.hOutN he]
          rfl
    · simp only [if_neg hfin]; exact h

lemma launchOne_inv (cfg : Config E) {s : PoolState E} (h : Inv cfg s)
    (he : s.ended = false) (_hcle : ¬ cfg.count ≤ s.completed) (hd : ¬ s.draining = true)
    (hco : ¬ cfg.count ≤ s.completed + s.ongoing)
    (hcap : (s.ongoing : Int) < cfg.concurrency) :
    Inv cfg (launchOne s) := by
  rw [Bool.not_eq_true] at hd
  have hstart1 : s.started + 1 ≤ cfg.count := by
    by_cases hcont : cfg.onError = OnError.continue_
    · have := h.eq_cont hcont
      omega
    · have heq := h.eq_noncont hcont
      have herr : s.errors = [] := by
        cases honor : cfg.onError with
        | abort =>
          by_contra hne
          have := h.hAbort honor hne
          rw [he] at this
          cases this
        | drain =>
          by_contra hne
          have := h.hDrainE honor hne
          rw [hd] at this
          cases this
        | continue_ => exact absurd honor hcont
      rw [herr] at heq
      simp only [List.length_nil] at heq
      omega
  refine { hOng := ?_, hInvk := ?_, hPerm := ?_, hErr := h.hErr, hComp := h.hComp,
           hStart := hstart1, hConc := ?_,
           hAbort := fun ha hne => h.hAbort ha hne,
           hDrainE := fun hdr hne => h.hDrainE hdr hne,
           hDrainOnly := fun hdr => h.hDrainOnly hdr,
           hEnded := fun htr => ?_,
           hOutN := fun _ => h.hOutN he, hOutE := fun htr => ?_ }
  · show s.ongoing + 1 = (s.pending ++ [s.started]).length
    rw [List.length_append, h.hOng]
    rfl
  · show s.invoked ++ [s.started] = List.range (s.started + 1)
    rw [h.hInvk, List.range_succ]
  · show (s.resolvedList ++ (s.pending ++ [s.started])).Perm (List.range (s.started + 1))
    rw [List.range_succ, ← List.append_assoc]
    exact h.hPerm.append_right [s.started]
  · show ((s.ongoing + 1 : Nat) : Int) ≤ max cfg.concurrency 0
    have h2 : cfg.concurrency ≤ max cfg.concurrency 0 := le_max_left _ _
    push_cast
    omega
  · exact absurd htr (by rw [show (launchOne s).ended = s.ended from rfl, he]; simp)
  · exact absurd htr (by rw [show (launchOne s).ended = s.ended from rfl, he]; simp)

lemma triggerGo_inv (cfg : Config E) :
    ∀ f {s : PoolState E}, Inv cfg s → Inv cfg (triggerGo cfg f s) := by
  intro f
  induction f with
  | zero =>
    intro s h
    rw [triggerGo_zero_eq]
    split
    · exact h
    · split
      · exact checkCompletion_inv cfg h
      · split
        · exact checkCompletion_inv cfg h
        · split
          · exact h
          · split
            · exact h
            · exact h
  | succ f ih =>
    intro s h
    rw [triggerGo_succ_eq]
    split
    · exact h
    · split
      · exact checkCompletion_inv cfg h
      · split
        · exact checkCompletion_inv cfg h
        · split
          · exact h
          · split
            · rename_i he hc hd hco hcap
              exact ih (launchOne_inv cfg h (by rwa [Bool.not_eq_true] at he) hc hd hco hcap)
            · exact h

lemma trigger_inv (cfg : Config E) {s : PoolState E} (h : Inv cfg s) :
    Inv cfg (trigger cfg s) := triggerGo_inv cfg _ h

lemma iterTrigger_inv (cfg : Config E) :
    ∀ n {s : PoolState E}, Inv cfg s → Inv cfg (iterTrigger cfg n s) := by
  intro n
  induction n with
  | zero => exact fun h => h
  | succ n ih => exact fun h => ih (trigger_inv cfg h)

lemma init0_inv (cfg : Config E) : Inv cfg (init0 : PoolState E) :=
  { hOng := rfl
    hInvk := rfl
    hPerm := List.Perm.refl _
    hErr := rfl
    hComp := by split <;> rfl
    hStart := Nat.zero_le _
    hConc := by exact le_max_right _ _
    hAbort := fun _ hne => absurd rfl hne
    hDrainE := fun _ hne => absurd rfl hne
    hDrainOnly := fun hdr => (nomatch hdr)
    hEnded := fun htr => (nomatch htr)
    hOutN := fun _ => rfl
    hOutE := fun htr => (nomatch htr) }

lemma initRun_inv (cfg : Config E) (hcount : 0 < cfg.count) : Inv cfg (initRun cfg) := by
  unfold initRun
  rw [if_neg (by omega)]
  exact iterTrigger_inv cfg _ (init0_inv cfg)

end PromisePool

namespace PromisePool
variable {E : Type}

lemma perm_pop {l r : List Nat} {i : Nat} (hi : i ∈ r) :
    ((l ++ [i]) ++ r.erase i).Perm (l ++ r) := by
  rw [List.append_assoc]
  exact List.Perm.append_left l (List.perm_cons_erase hi).symm

lemma resolveAt_inv (cfg : Config E) {s : PoolState E} {i : Nat} (h : Inv cfg s)
    (hi : i ∈ s.pending) : Inv cfg (resolveAt cfg i s) := by
  have hong1 : 0 < s.pending.length := List.length_pos.mpr (List.ne_nil_of_mem hi)
  have herase : (s.pending.erase i).length = s.pending.length - 1 :=
    List.length_erase_of_mem hi
  have hperm2 : ((s.resolvedList ++ [i]) ++ s.pending.erase i).Perm (List.range s.started) :=
    (perm_pop hi).trans h.hPerm
  unfold resolveAt
  by_cases hfail : cfg.fail i = true
  · -- rejection
    simp only [if_pos hfail]
    unfold onFailure onErrorSwitch
    have herr2 : s.errors ++ [cfg.err i] =
        ((s.resolvedList ++ [i]).filter cfg.fail).map cfg.err := by
      rw [List.filter_append, List.map_append, ← h.hErr]
      simp [hfail]
    have hcompne : ∀ hne : cfg.onError ≠ OnError.continue_,
        s.completed = ((s.resolvedList ++ [i]).filter (fun j => !cfg.fail j)).length := by
      intro hne
      rw [List.filter_append, h.hComp, if_neg hne]
      simp [hfail]
    by_cases hab : cfg.onError = OnError.abort
    · simp only [if_pos hab]
      by_cases hse2 : s.ended = false
      · rw [if_pos (show _ = false from hse2)]
        have herrnil : s.errors = [] := by
          by_contra hne
          have := h.hAbort hab hne
          rw [hse2] at this
          cases this
        refine { hOng := ?_, hInvk := h.hInvk, hPerm := hperm2, hErr := herr2,
                 hComp := ?_, hStart := h.hStart, hConc := ?_,
                 hAbort := fun _ _ => rfl,
                 hDrainE := fun hdr _ => absurd (hab.symm.trans hdr) (by decide),
                 hDrainOnly := fun hdrn => absurd ((h.hDrainOnly hdrn).1.symm.trans hab) (by decide),
                 hEnded := fun _ => Or.inr (Or.inl ⟨hab, by simp⟩),
                 hOutN := fun hff => (nomatch hff),
                 hOutE := fun _ => Or.inr (Or.inl ⟨hab, cfg.err i, [], ?_, ?_⟩) }
        · show s.ongoing - 1 = (s.pending.erase i).length
          rw [h.hOng, herase]
        · rw [if_neg (by rw [hab]; decide)]
          exact hcompne (by rw [hab]; decide)
        · show ((s.ongoing - 1 : Nat) : Int) ≤ max cfg.concurrency 0
          have h1 := h.hConc
          omega
        · show s.errors ++ [cfg.err i] = cfg.err i :: []
          rw [herrnil]
          rfl
        · show s.outcomes ++ _ = _
          rw [h.hOutN hse2]
          rfl
      · rw [if_neg hse2]
        have hset : s.ended = true := by
          cases hb : s.ended with
          | false => exact absurd hb hse2
          | true => rfl
        obtain ⟨_, herrne⟩ := h.ended_cases hi hset
        refine { hOng := ?_, hInvk := h.hInvk, hPerm := hperm2, hErr := herr2,
                 hComp := ?_, hStart := h.hStart, hConc := ?_,
                 hAbort := fun _ _ => hset,
                 hDrainE := fun hdr _ => absurd (hab.symm.trans hdr) (by decide),
                 hDrainOnly := fun hdrn => absurd ((h.hDrainOnly hdrn).1.symm.trans hab) (by decide),
                 hEnded := fun _ => Or.inr (Or.inl ⟨hab, by simp⟩),
                 hOutN := fun hff => ?_,
                 hOutE := fun _ => ?_ }
        · show s.ongoing - 1 = (s.pending.erase i).length
          rw [h.hOng, herase]
        · rw [if_neg (by rw [hab]; decide)]
          exact hcompne (by rw [hab]; decide)
        · show ((s.ongoing - 1 : Nat) : Int) ≤ max cfg.concurrency 0
          have h1 := h.hConc
          omega
        · exact absurd (hset.symm.trans hff) (by decide)
        · rcases h.hOutE hset with ⟨hnil, _⟩ | ⟨_, e, rest, herrs, houts⟩ | ⟨hnab', _, _⟩
          · exact absurd hnil herrne
          · refine Or.inr (Or.inl ⟨hab, e, rest ++ [cfg.err i], ?_, houts⟩)
            show s.errors ++ [cfg.err i] = e :: (rest ++ [cfg.err i])
            rw [herrs]
            rfl
          · exact absurd hab hnab'
    · simp only [if_neg hab]
      have hse : s.ended = false := h.ended_false_of_pending hi hab
      by_cases hdr : cfg.onError = OnError.drain
      · simp only [if_pos hdr]
        apply checkCompletion_inv
        refine { hOng := ?_, hInvk := h.hInvk, hPerm := hperm2, hErr := herr2,
                 hComp := ?_, hStart := h.hStart, hConc := ?_,
                 hAbort := fun hab' _ => absurd hab' hab,
                 hDrainE := fun _ _ => rfl,
                 hDrainOnly := fun _ => ⟨hdr, by simp⟩,
                 hEnded := fun htr => absurd htr (by rw [hse]; simp),
                 hOutN := fun _ => h.hOutN hse,
                 hOutE := fun htr => absurd htr (by rw [hse]; simp) }
        · show s.ongoing - 1 = (s.pending.erase i).length
          rw [h.hOng, herase]
        · rw [if_neg (by rw [hdr]; decide)]
          exact hcompne (by rw [hdr]; decide)
        · show ((s.ongoing - 1 : Nat) : Int) ≤ max cfg.concurrency 0
          have h1 := h.hConc
          omega
      · simp only [if_neg hdr]
        have hcont : cfg.onError = OnError.continue_ := by
          cases honor : cfg.onError with
          | abort => exact absurd honor hab
          | drain => exact absurd honor hdr
          | continue_ => rfl
        apply trigger_inv
        refine { hOng := ?_, hInvk := h.hInvk, hPerm := hperm2, hErr := herr2,
                 hComp := ?_, hStart := h.hStart, hConc := ?_,
                 hAbort := fun hab' _ => absurd hab' hab,
                 hDrainE := fun hdr' _ => absurd hdr' hdr,
                 hDrainOnly := fun hdrn => absurd (h.hDrainOnly hdrn).1 hdr,
                 hEnded := fun htr => absurd htr (by rw [hse]; simp),
                 hOutN := fun _ => h.hOutN hse,
                 hOutE := fun htr => absurd htr (by rw [hse]; simp) }
        · show s.ongoing - 1 = (s.pending.erase i).length
          rw [h.hOng, herase]
        · show s.completed + 1 = _
          rw [if_pos hcont, h.hComp, if_pos hcont]
          simp
        · show ((s.ongoing - 1 : Nat) : Int) ≤ max cfg.concurrency 0
          have h1 := h.hConc
          omega
  · -- fulfillment
    simp only [if_neg hfail]
    unfold onSuccess
    rw [Bool.not_eq_true] at hfail
    apply trigger_inv
    refine { hOng := ?_, hInvk := h.hInvk, hPerm := hperm2, hErr := ?_,
             hComp := ?_, hStart := h.hStart, hConc := ?_,
             hAbort := fun hab hne => h.hAbort hab hne,
             hDrainE := fun hdr hne => h.hDrainE hdr hne,
             hDrainOnly := fun hdrn => h.hDrainOnly hdrn,
             hEnded := fun htr => ?_,
             hOutN := fun hff => h.hOutN hff,
             hOutE := fun htr => h.hOutE htr }
    · show s.ongoing - 1 = (s.pending.erase i).length
      rw [h.hOng, herase]
    · show s.errors = ((s.resolvedList ++ [i]).filter cfg.fail).map cfg.err
      rw [List.filter_append, h.hErr]
      simp [hfail]
    · show s.completed + 1 = _
      by_cases hcont : cfg.onError = OnError.continue_
      · rw [if_pos hcont, h.hComp, if_pos hcont]
        simp
      · rw [if_neg hcont, List.filter_append, h.hComp, if_neg hcont]
        simp [hfail]
    · show ((s.ongoing - 1 : Nat) : Int) ≤ max cfg.concurrency 0
      have h1 := h.hConc
      omega
    · rcases h.hEnded htr with hcc | hrest | ⟨_, hz⟩
      · exact Or.inl (le_trans hcc (Nat.le_succ _))
      · exact Or.inr (Or.inl hrest)
      · have := h.hOng
        exact absurd hz (by omega)

end PromisePool

namespace PromisePool
variable {E : Type}

lemma reachable_inv (cfg : Config E) (hcount : 0 < cfg.count) {s : PoolState E}
    (hr : Reachable cfg s) : Inv cfg s := by
  induction hr with
  | init => exact initRun_inv cfg hcount
  | step _ hst ih =>
    cases hst with
    | resolve i t hmem => exact resolveAt_inv cfg ih hmem

lemma reachable_star {cfg : Config E} {s t : PoolState E} (hr : Reachable cfg s)
    (hst : Star cfg s t) : Reachable cfg t := by
  induction hst with
  | refl => exact hr
  | tail _ hstep ih => exact Reachable.step ih hstep

lemma no_step_of_pending_nil {cfg : Config E} {s t : PoolState E} (h : s.pending = []) :
    ¬ Step cfg s t := by
  intro hst
  cases hst with
  | resolve i _ hmem => rw [h] at hmem; cases hmem

lemma reachable_frozen {cfg : Config E} (h : (initRun cfg).pending = []) {s : PoolState E}
    (hr : Reachable cfg s) : s = initRun cfg := by
  induction hr with
  | init => rfl
  | step _ hst ih =>
    rw [ih] at hst
    exact absurd hst (no_step_of_pending_nil h)

lemma initRun_count0 (cfg : Config E) (h0 : cfg.count = 0) :
    initRun cfg = { (init0 : PoolState E) with outcomes := [Outcome.success] } := by
  unfold initRun
  rw [h0, Nat.min_zero]
  rfl

lemma initRun_nonpos (cfg : Config E) (hc : cfg.concurrency ≤ 0) (h0 : cfg.count ≠ 0) :
    initRun cfg = init0 := by
  unfold initRun
  have ht : cfg.concurrency.toNat = 0 := by omega
  rw [ht, Nat.zero_min, if_neg h0]
  rfl

lemma step_ended_mono {cfg : Config E} {s s' : PoolState E} (hst : Step cfg s s')
    (he : s.ended = true) : s'.ended = true := by
  cases hst with
  | resolve i _ _ => exact resolveAt_ended_of cfg i he

lemma star_frozen {cfg : Config E} {s t : PoolState E} (hst : Star cfg s t)
    (he : s.ended = true) :
    t.outcomes = s.outcomes ∧ t.started = s.started ∧ t.ended = true := by
  induction hst with
  | refl => exact ⟨rfl, rfl, he⟩
  | tail _ hstep ih =>
    obtain ⟨h1, h2, h3⟩ := ih
    cases hstep with
    | resolve i u hmem =>
      obtain ⟨g1, g2⟩ := resolveAt_frozen cfg i h3
      exact ⟨g1.trans h1, g2.trans h2, resolveAt_ended_of cfg i h3⟩

lemma checkCompletion_fires (cfg : Config E) {s : PoolState E} (he : s.ended = false)
    (hcond : cfg.count ≤ s.completed ∨
      (s.draining = true ∧ s.started = (s.completed + s.errors.length) + s.ongoing ∧
        s.ongoing = 0)) :
    (checkCompletion cfg s).ended = true := by
  unfold checkCompletion
  rw [if_neg (by rw [he]; simp), if_pos hcond]
  split <;> rfl

/-- A dispatch step from an idle (nothing pending) state that has not ended:
either it finalizes the run, or it launches a task. -/
lemma trigger_progress (cfg : Config E) {s : PoolState E}
    (_hp : s.pending = []) (he : s.ended = false) (hong0 : s.ongoing = 0)
    (hdrid : s.draining = true → s.started = s.completed + s.errors.length)
    (hconc : 1 ≤ cfg.concurrency) :
    (trigger cfg s).ended = true ∨ (trigger cfg s).pending ≠ [] := by
  rw [trigger_eq, if_neg (by rw [he]; simp)]
  by_cases hcc : cfg.count ≤ s.completed
  · rw [if_pos hcc]
    exact Or.inl (checkCompletion_fires cfg he (Or.inl hcc))
  · rw [if_neg hcc]
    by_cases hd : s.draining = true
    · rw [if_pos hd]
      exact Or.inl (checkCompletion_fires cfg he
        (Or.inr ⟨hd, by have := hdrid hd; omega, hong0⟩))
    · rw [if_neg hd, if_neg (by omega)]
      rw [if_pos (by rw [hong0]; push_cast; omega)]
      right
      apply trigger_pending_ne
      simp [launchOne]

lemma resolveAt_pending_ext (cfg : Config E) (i : Nat) (s : PoolState E) :
    ∃ l, (resolveAt cfg i s).pending = s.pending.erase i ++ l := by
  unfold resolveAt onFailure onErrorSwitch onSuccess
  split
  · split
    · split
      · exact ⟨[], by simp⟩
      · exact ⟨[], by simp⟩
    · split
      · exact ⟨[], by simp [(checkCompletion_frame cfg _).2.2.2.2.2.1]⟩
      · obtain ⟨l, hl⟩ := (trigger_frame cfg _).2.2.2.2.2
        exact ⟨l, hl⟩
  · obtain ⟨l, hl⟩ := (trigger_frame cfg _).2.2.2.2.2
    exact ⟨l, hl⟩

/-- Every resolution step out of a live state ends the run or leaves a task
pending: the scheduler cannot go quiet without delivering. -/
lemma resolveAt_live (cfg : Config E) {s : PoolState E} {i : Nat} (h : Inv cfg s)
    (hconc : 1 ≤ cfg.concurrency) (hmem : i ∈ s.pending) :
    (resolveAt cfg i s).ended = true ∨ (resolveAt cfg i s).pending ≠ [] := by
  by_cases hse : s.ended = true
  · exact Or.inl (resolveAt_ended_of cfg i hse)
  rw [Bool.not_eq_true] at hse
  by_cases herase : s.pending.erase i = []
  · have hpl : s.pending.length = 1 := by
      have h1 := List.length_erase_of_mem hmem
      have h2 : 0 < s.pending.length := List.length_pos.mpr (List.ne_nil_of_mem hmem)
      rw [herase] at h1
      simp at h1
      omega
    have hong : s.ongoing = 1 := by rw [h.hOng]; omega
    unfold resolveAt
    by_cases hfail : cfg.fail i = true
    · simp only [if_pos hfail]
      unfold onFailure onErrorSwitch
      by_cases hab : cfg.onError = OnError.abort
      · simp only [if_pos hab]
        rw [if_pos (show _ = false from hse)]
        exact Or.inl rfl
      · simp only [if_neg hab]
        by_cases hdr : cfg.onError = OnError.drain
        · simp only [if_pos hdr]
          have hid := h.eq_noncont (by rw [hdr]; decide)
          refine Or.inl (checkCompletion_fires cfg hse (Or.inr ⟨rfl, ?_, ?_⟩))
          · show s.started = (s.completed + (s.errors ++ [cfg.err i]).length) + (s.ongoing - 1)
            simp only [List.length_append, List.length_cons, List.length_nil]
            omega
          · show s.ongoing - 1 = 0
            omega
        · simp only [if_neg hdr]
          have hcont : cfg.onError = OnError.continue_ := by
            cases honor : cfg.onError with
            | abort => exact absurd honor hab
            | drain => exact absurd honor hdr
            | continue_ => rfl
          have hdrf : ¬ s.draining = true := by
            intro hbd
            exact absurd ((h.hDrainOnly hbd).1.symm.trans hcont) (by decide)
          exact trigger_progress cfg herase hse (by show s.ongoing - 1 = 0; omega)
            (fun hbd => absurd hbd hdrf) hconc
    · simp only [if_neg hfail]
      unfold onSuccess
      have hdrid : s.draining = true → s.started = (s.completed + 1) + s.errors.length := by
        intro hbd
        have hdr : cfg.onError = OnError.drain := (h.hDrainOnly hbd).1
        have hid := h.eq_noncont (by rw [hdr]; decide)
        omega
      exact trigger_progress cfg herase hse (by show s.ongoing - 1 = 0; omega)
        (fun hbd => hdrid hbd) hconc
  · obtain ⟨l, hl⟩ := resolveAt_pending_ext cfg i s
    rw [hl]
    simp [herase]

lemma step_live (cfg : Config E) {s s' : PoolState E} (h : Inv cfg s)
    (hconc : 1 ≤ cfg.concurrency) (hst : Step cfg s s') (hne : s'.ended = false) :
    s'.pending ≠ [] := by
  cases hst with
  | resolve i t hmem =>
    rcases resolveAt_live cfg h hconc hmem with hend | hpend
    · rw [hne] at hend
      cases hend
    · exact hpend

end PromisePool

namespace PromisePool
variable {E : Type}

lemma iterTrigger_pending_ne (cfg : Config E) :
    ∀ n {s : PoolState E}, s.pending ≠ [] → (iterTrigger cfg n s).pending ≠ [] := by
  intro n
  induction n with
  | zero => exact fun h => h
  | succ n ih => exact fun h => ih (trigger_pending_ne cfg h)

lemma initRun_pending_ne (cfg : Config E) (hcount : 0 < cfg.count)
    (hconc : 1 ≤ cfg.concurrency) : (initRun cfg).pending ≠ [] := by
  unfold initRun
  rw [if_neg (by omega)]
  obtain ⟨m, hm⟩ : ∃ m, min cfg.concurrency.toNat cfg.count = m + 1 :=
    ⟨min cfg.concurrency.toNat cfg.count - 1, by omega⟩
  rw [hm]
  show (iterTrigger cfg m (trigger cfg init0)).pending ≠ []
  apply iterTrigger_pending_ne
  rw [trigger_eq]
  rw [if_neg (by simp [init0])]
  rw [if_neg (show ¬ cfg.count ≤ (init0 : PoolState E).completed by simp [init0]; omega)]
  rw [if_neg (by simp [init0])]
  rw [if_neg (show ¬ cfg.count ≤ (init0 : PoolState E).completed + (init0 : PoolState E).ongoing
    by simp [init0]; omega)]
  rw [if_pos (show (((init0 : PoolState E).ongoing : Nat) : Int) < cfg.concurrency
    by simp [init0]; omega)]
  exact trigger_pending_ne cfg (by simp [launchOne, init0])

lemma reachable_live (cfg : Config E) (hcount : 0 < cfg.count) (hconc : 1 ≤ cfg.concurrency)
    {s : PoolState E} (hr : Reachable cfg s) : s.ended = false → s.pending ≠ [] := by
  induction hr with
  | init => exact fun _ => initRun_pending_ne cfg hcount hconc
  | step hprev hst ih =>
    exact fun he => step_live cfg (reachable_inv cfg hcount hprev) hconc hst he

/-- A quiet reachable state (no task in flight) has delivered: the run never
goes silent without its terminal outcome. -/
lemma stuck_ended (cfg : Config E) (hcount : 0 < cfg.count) (hconc : 1 ≤ cfg.concurrency)
    {s : PoolState E} (hr : Reachable cfg s) (hp : s.pending = []) : s.ended = true := by
  cases hb : s.ended with
  | true => rfl
  | false => exact absurd hp (reachable_live cfg hcount hconc hr hb)

/-- Within at most `count` further resolutions every run reaches a quiet
state: runs terminate. -/
lemma to_stuck (cfg : Config E) (hcount : 0 < cfg.count) :
    ∀ m {s : PoolState E}, Reachable cfg s → cfg.count - s.resolvedList.length ≤ m →
      ∃ t, Star cfg s t ∧ t.pending = [] ∧ Reachable cfg t := by
  intro m
  induction m with
  | zero =>
    intro s hr hm
    have hinv := reachable_inv cfg hcount hr
    have h1 := hinv.res_pend
    have h2 := hinv.hStart
    have hp : s.pending = [] := by
      have : s.pending.length = 0 := by omega
      exact List.eq_nil_of_length_eq_zero this
    exact ⟨s, Relation.ReflTransGen.refl, hp, hr⟩
  | succ m ih =>
    intro s hr hm
    cases hp : s.pending with
    | nil => exact ⟨s, Relation.ReflTransGen.refl, hp, hr⟩
    | cons j rest =>
      have hmem : j ∈ s.pending := by rw [hp]; exact List.mem_cons_self _ _
      have hst : Step cfg s (resolveAt cfg j s) := Step.resolve j s hmem
      have hr' : Reachable cfg (resolveAt cfg j s) := Reachable.step hr hst
      have hinv := reachable_inv cfg hcount hr
      have h1 := hinv.res_pend
      have h2 := hinv.hStart
      have hdecr : cfg.count - (resolveAt cfg j s).resolvedList.length ≤ m := by
        rw [resolveAt_resolvedList cfg j s]
        simp only [List.length_append, List.length_cons, List.length_nil]
        have hplen : 0 < s.pending.length := by rw [hp]; simp
        omega
      obtain ⟨t, hstar, htp, hrt⟩ := ih hr' hdecr
      exact ⟨t, Relation.ReflTransGen.head hst hstar, htp, hrt⟩

lemma trigger_no_launch (cfg : Config E) {s : PoolState E}
    (hcond : s.ended = true ∨ cfg.count ≤ s.completed ∨ s.draining = true) :
    trigger cfg s = s ∨ trigger cfg s = checkCompletion cfg s := by
  rw [trigger_eq]
  by_cases he : s.ended = true
  · rw [if_pos he]; exact Or.inl rfl
  · rw [if_neg he]
    by_cases hcc : cfg.count ≤ s.completed
    · rw [if_pos hcc]; exact Or.inr rfl
    · rw [if_neg hcc]
      have hd : s.draining = true := by
        rcases hcond with hx | hx | hx
        · exact absurd hx he
        · exact absurd hx hcc
        · exact hx
      rw [if_pos hd]; exact Or.inr rfl

lemma after_no_launch (cfg : Config E) {x : PoolState E}
    (hcond : x.ended = true ∨ cfg.count ≤ x.completed ∨ x.draining = true) :
    (trigger cfg x).started = x.started ∧ (trigger cfg x).draining = x.draining ∧
    (trigger cfg x).ongoing = x.ongoing := by
  rcases trigger_no_launch cfg hcond with heq | heq <;> rw [heq]
  · exact ⟨rfl, rfl, rfl⟩
  · obtain ⟨_, h2, h3, h4, _⟩ := checkCompletion_frame cfg x
    exact ⟨h3, h4, h2⟩

/-- While draining, a resolution launches nothing: `started` is frozen,
`draining` stays set, and `ongoing` strictly decreases. -/
lemma step_draining (cfg : Config E) {s s' : PoolState E} (h : Inv cfg s)
    (hd : s.draining = true) (hst : Step cfg s s') :
    s'.started = s.started ∧ s'.draining = true ∧ s'.ongoing < s.ongoing := by
  obtain ⟨hdr, _⟩ := h.hDrainOnly hd
  cases hst with
  | resolve i t hmem =>
    have hong1 : 0 < s.ongoing := by
      rw [h.hOng]
      exact List.length_pos.mpr (List.ne_nil_of_mem hmem)
    unfold resolveAt
    by_cases hfail : cfg.fail i = true
    · simp only [if_pos hfail]
      unfold onFailure onErrorSwitch
      rw [if_neg (by rw [hdr]; decide), if_pos hdr]
      refine ⟨(checkCompletion_frame cfg _).2.2.1, ?_, ?_⟩
      · exact (checkCompletion_frame cfg _).2.2.2.1
      · rw [(checkCompletion_frame cfg _).2.1]
        show s.ongoing - 1 < s.ongoing
        omega
    · simp only [if_neg hfail]
      unfold onSuccess
      have hres := @after_no_launch E cfg
        { s with pending := s.pending.erase i, resolvedList := s.resolvedList ++ [i],
                 ongoing := s.ongoing - 1, completed := s.completed + 1 }
        (Or.inr (Or.inr hd))
      refine ⟨?_, ?_, ?_⟩
      · exact hres.1
      · exact hres.2.1.trans hd
      · exact lt_of_eq_of_lt hres.2.2 (show s.ongoing - 1 < s.ongoing by omega)

lemma star_draining (cfg : Config E) (hcount : 0 < cfg.count) {s t : PoolState E}
    (hr : Reachable cfg s) (hd : s.draining = true) (hst : Star cfg s t) :
    t.started = s.started ∧ t.draining = true ∧ t.ongoing ≤ s.ongoing := by
  induction hst with
  | refl => exact ⟨rfl, hd, Nat.le_refl _⟩
  | tail hstar hstep ih =>
    obtain ⟨h1, h2, h3⟩ := ih
    obtain ⟨g1, g2, g3⟩ :=
      step_draining cfg (reachable_inv cfg hcount (reachable_star hr hstar)) h2 hstep
    exact ⟨g1.trans h1, g2, by omega⟩

end PromisePool

namespace PromisePool
variable {E : Type}

/-! ## Claim C1 -/

/-- Configuration for C1: `concurrency 1`, `count 2`, index 0 fails, policy
`'continue'`. -/
def cfgC1 : Config Nat := ⟨1, 2, fun i => i == 0, fun i => i, OnError.continue_⟩

/-- C1 (counterexample): the spec's invariant
`started = completed + errors.length + ongoing` does NOT hold at every
observation point under the Continue policy.  After task 0 of `cfgC1` fails,
the run is still live (`ended = false`) yet `started = 2` while
`completed + errors.length + ongoing = 1 + 1 + 1 = 3`: under `'continue'` a
failed task both appends to `errors` and increments `completed`, so the
failure is counted twice in the right-hand side. -/
theorem C1_counterexample :
    Reachable cfgC1 (resolveAt cfgC1 0 (initRun cfgC1)) ∧
    (resolveAt cfgC1 0 (initRun cfgC1)).ended = false ∧
    (resolveAt cfgC1 0 (initRun cfgC1)).started ≠
      (resolveAt cfgC1 0 (initRun cfgC1)).completed +
      (resolveAt cfgC1 0 (initRun cfgC1)).errors.length +
      (resolveAt cfgC1 0 (initRun cfgC1)).ongoing :=
  ⟨Reachable.step Reachable.init (Step.resolve 0 _ (by decide)), by decide, by decide⟩

/-- C1 (amended): at every observation point of a run, `started ≤ count`
holds, and the counter identity depends on the policy: under `'abort'` and
`'drain'` it is `started = completed + errors.length + ongoing`; under
`'continue'`, where a failed task both appends to `errors` and increments
`completed`, it is `started = completed + ongoing`. -/
theorem C1_invariant (cfg : Config E) (s : PoolState E) (hr : Reachable cfg s) :
    s.started ≤ cfg.count ∧
    (cfg.onError = OnError.continue_ → s.started = s.completed + s.ongoing) ∧
    (cfg.onError ≠ OnError.continue_ →
      s.started = s.completed + s.errors.length + s.ongoing) := by
  by_cases hcount : cfg.count = 0
  · have hs := reachable_frozen (by rw [initRun_count0 cfg hcount]; rfl) hr
    rw [hs, initRun_count0 cfg hcount]
    exact ⟨Nat.zero_le _, fun _ => rfl, fun _ => rfl⟩
  · have hinv := reachable_inv cfg (by omega) hr
    exact ⟨hinv.hStart, fun hc => hinv.eq_cont hc, fun hc => hinv.eq_noncont hc⟩

/-- Witness for C1's amended invariant at the freshly initialized `cfgC1` run. -/
theorem C1_invariant_witness :
    (initRun cfgC1).started ≤ cfgC1.count ∧
    (cfgC1.onError = OnError.continue_ →
      (initRun cfgC1).started = (initRun cfgC1).completed + (initRun cfgC1).ongoing) ∧
    (cfgC1.onError ≠ OnError.continue_ →
      (initRun cfgC1).started = (initRun cfgC1).completed +
        (initRun cfgC1).errors.length + (initRun cfgC1).ongoing) :=
  C1_invariant cfgC1 (initRun cfgC1) Reachable.init

/-! ## Claim C2 -/

/-- C2: under `'abort'`, the first observed failure becomes the run's
terminal outcome verbatim.  If a reachable live state resolves a failing
task `i`, then no failure was observed before (`errors = []`), the run ends
at once with `reject(e)` carrying exactly the failure value `cfg.err i` —
not an aggregate — regardless of what is still pending, and the delivered
outcome never changes afterwards however the in-flight tasks resolve. -/
theorem C2_abort_first_failure (cfg : Config E) (s : PoolState E) (i : Nat)
    (hab : cfg.onError = OnError.abort) (hcount : 0 < cfg.count)
    (hr : Reachable cfg s) (hse : s.ended = false)
    (_hmem : i ∈ s.pending) (hfail : cfg.fail i = true) :
    s.errors = [] ∧ (resolveAt cfg i s).ended = true ∧
    (resolveAt cfg i s).outcomes = [Outcome.rejectedSingle (cfg.err i)] ∧
    ∀ t, Star cfg (resolveAt cfg i s) t →
      t.outcomes = [Outcome.rejectedSingle (cfg.err i)] := by
  have hinv := reachable_inv cfg hcount hr
  have herrnil : s.errors = [] := by
    by_contra hne
    have := hinv.hAbort hab hne
    rw [hse] at this
    cases this
  have houts : s.outcomes = [] := hinv.hOutN hse
  have heq : resolveAt cfg i s =
      { s with pending := s.pending.erase i, resolvedList := s.resolvedList ++ [i],
               ongoing := s.ongoing - 1, errors := s.errors ++ [cfg.err i],
               ended := true,
               outcomes := s.outcomes ++ [Outcome.rejectedSingle (cfg.err i)] } := by
    unfold resolveAt onFailure onErrorSwitch
    rw [if_pos hfail, if_pos hab, if_pos (show _ = false from hse)]
  have houtfin : (resolveAt cfg i s).outcomes = [Outcome.rejectedSingle (cfg.err i)] := by
    rw [heq]
    show s.outcomes ++ _ = _
    rw [houts]
    rfl
  have hendfin : (resolveAt cfg i s).ended = true := by rw [heq]
  refine ⟨herrnil, hendfin, houtfin, ?_⟩
  intro t hstar
  obtain ⟨h1, _, _⟩ := star_frozen hstar hendfin
  rw [h1, houtfin]

/-- Configuration for C2's witness: every task fails, `'abort'`. -/
def cfgC2 : Config Nat := ⟨2, 3, fun _ => true, fun i => i + 10, OnError.abort⟩

/-- Witness for C2: in `cfgC2`, resolving pending task 0 first rejects the
run with exactly its failure value `10`. -/
theorem C2_abort_first_failure_witness :
    (initRun cfgC2).errors = [] ∧
    (resolveAt cfgC2 0 (initRun cfgC2)).ended = true ∧
    (resolveAt cfgC2 0 (initRun cfgC2)).outcomes = [Outcome.rejectedSingle 10] :=
  have h := C2_abort_first_failure cfgC2 (initRun cfgC2) 0 rfl (by decide)
    Reachable.init (by decide) (by decide) rfl
  ⟨h.1, h.2.1, h.2.2.1⟩

/-! ## Claim C3 -/

/-- C3: whenever the completion check finalizes a run (the only delivery path
of the Drain and Continue policies), it delivers the aggregate of all
collected errors with message `"<errors.length> task(s) failed"` exactly
when `errors` is non-empty and success otherwise; an aggregate is never
delivered with an empty error list; and in any reachable state the collected
errors are the failure values of the failed resolutions in resolution
order. -/
theorem C3_completion_check (cfg : Config E) :
    (∀ s : PoolState E, s.ended = false → (checkCompletion cfg s).ended = true →
      (s.errors = [] → (checkCompletion cfg s).outcomes = s.outcomes ++ [Outcome.success]) ∧
      (s.errors ≠ [] → (checkCompletion cfg s).outcomes =
        s.outcomes ++ [Outcome.rejectedAggregate s.errors (aggMsg s.errors.length)])) ∧
    (∀ (s : PoolState E) (l : List E) (m : String),
      (checkCompletion cfg s).outcomes = s.outcomes ++ [Outcome.rejectedAggregate l m] →
      l ≠ []) ∧
    (∀ s : PoolState E, Reachable cfg s →
      s.errors = (s.resolvedList.filter cfg.fail).map cfg.err) := by
  refine ⟨?_, ?_, ?_⟩
  · intro s hse hend
    unfold checkCompletion at hend ⊢
    rw [if_neg (by rw [hse]; simp)] at hend ⊢
    by_cases hfin : cfg.count ≤ s.completed ∨
        (s.draining = true ∧ s.started = (s.completed + s.errors.length) + s.ongoing ∧
          s.ongoing = 0)
    · rw [if_pos hfin]
      constructor
      · intro hnil
        rw [if_neg (by rw [hnil]; simp)]
      · intro hne
        rw [if_pos (by cases hl : s.errors with
          | nil => exact absurd hl hne
          | cons a l => simp)]
    · rw [if_neg hfin] at hend
      rw [hse] at hend
      cases hend
  · intro s l m hout
    unfold checkCompletion at hout
    by_cases hse : s.ended = true
    · rw [if_pos hse] at hout
      have : ([] : List (Outcome E)) = [Outcome.rejectedAggregate l m] := by
        have := congrArg List.length hout
        simp at this
      cases this
    · rw [if_neg hse] at hout
      by_cases hfin : cfg.count ≤ s.completed ∨
          (s.draining = true ∧ s.started = (s.completed + s.errors.length) + s.ongoing ∧
            s.ongoing = 0)
      · rw [if_pos hfin] at hout
        by_cases herr : 0 < s.errors.length
        · rw [if_pos herr] at hout
          have h1 := List.append_cancel_left hout
          have h2 : Outcome.rejectedAggregate s.errors (aggMsg s.errors.length) =
              Outcome.rejectedAggregate l m := by injection h1
          injection h2 with h3 _
          intro hl
          rw [h3, hl] at herr
          simp at herr
        · rw [if_neg herr] at hout
          simp at hout
      · rw [if_neg hfin] at hout
        have : ([] : List (Outcome E)) = [Outcome.rejectedAggregate l m] := by
          have := congrArg List.length hout
          simp at this
        cases this
  · intro s hr
    by_cases hcount : cfg.count = 0
    · have hs := reachable_frozen (by rw [initRun_count0 cfg hcount]; rfl) hr
      rw [hs, initRun_count0 cfg hcount]
      rfl
    · exact (reachable_inv cfg (by omega) hr).hErr

/-- Configuration for C3's witness: `count 1`, the only task fails, `'drain'`. -/
def cfgC3 : Config Nat := ⟨1, 1, fun _ => true, fun _ => 7, OnError.drain⟩

/-- Witness for C3 at a concrete finalization: the single failing task of
`cfgC3` drains to an aggregate of its one error with message
"1 task(s) failed". -/
theorem C3_completion_check_witness :
    (resolveAt cfgC3 0 (initRun cfgC3)).outcomes =
      [Outcome.rejectedAggregate [7] (aggMsg 1)] ∧
    (initRun cfgC3).errors =
      (((initRun cfgC3).resolvedList).filter cfgC3.fail).map cfgC3.err :=
  have h3 := (C3_completion_check cfgC3).2.2 (initRun cfgC3) Reachable.init
  ⟨by decide, h3⟩

/-! ## Claim C4 -/

/-- C4: a run with `count = 0` delivers success immediately (during the
synchronous constructor body), the task is never invoked, and nothing
further ever happens, for every concurrency value and every policy. -/
theorem C4_count_zero (cfg : Config E) (h0 : cfg.count = 0) :
    (initRun cfg).outcomes = [Outcome.success] ∧ (initRun cfg).invoked = [] ∧
    ∀ s, Reachable cfg s → s = initRun cfg ∧ s.invoked = [] := by
  have hi := initRun_count0 cfg h0
  refine ⟨by rw [hi], by rw [hi]; rfl, ?_⟩
  intro s hr
  have hs := reachable_frozen (by rw [hi]; rfl) hr
  exact ⟨hs, by rw [hs, hi]; rfl⟩

/-- Configuration for C4's witness: `count 0` with nonzero concurrency and a
task that would fail if it ever ran. -/
def cfgC4 : Config Nat := ⟨5, 0, fun _ => true, fun i => i, OnError.drain⟩

/-- Witness for C4: the `count 0` run of `cfgC4` succeeds immediately and
invokes nothing. -/
theorem C4_count_zero_witness :
    (initRun cfgC4).outcomes = [Outcome.success] ∧ (initRun cfgC4).invoked = [] :=
  have h := C4_count_zero cfgC4 rfl
  ⟨h.1, h.2.1⟩

end PromisePool

namespace PromisePool
variable {E : Type}

lemma iterTrigger_frame (cfg : Config E) :
    ∀ n (s : PoolState E), (iterTrigger cfg n s).completed = s.completed ∧
      (iterTrigger cfg n s).errors = s.errors ∧
      (iterTrigger cfg n s).draining = s.draining := by
  intro n
  induction n with
  | zero => exact fun s => ⟨rfl, rfl, rfl⟩
  | succ n ih =>
    intro s
    obtain ⟨h1, h2, h3⟩ := ih (trigger cfg s)
    obtain ⟨g1, g2, g3, _⟩ := trigger_frame cfg s
    exact ⟨h1.trans g1, h2.trans g3, h3.trans g2⟩

lemma initRun_state (cfg : Config E) (hcount : 0 < cfg.count) :
    (initRun cfg).completed = 0 ∧ (initRun cfg).errors = ([] : List E) ∧
    (initRun cfg).draining = false ∧ (initRun cfg).ended = false := by
  have hne : ¬ cfg.count = 0 := by omega
  have hfr := iterTrigger_frame cfg (min cfg.concurrency.toNat cfg.count) (init0 : PoolState E)
  have hc : (initRun cfg).completed = 0 := by unfold initRun; rw [if_neg hne]; exact hfr.1
  have herr : (initRun cfg).errors = [] := by unfold initRun; rw [if_neg hne]; exact hfr.2.1
  have hd : (initRun cfg).draining = false := by unfold initRun; rw [if_neg hne]; exact hfr.2.2
  refine ⟨hc, herr, hd, ?_⟩
  cases hb : (initRun cfg).ended with
  | false => rfl
  | true =>
    have hinv := initRun_inv cfg hcount
    rcases hinv.hEnded hb with hcc | ⟨_, hne2⟩ | ⟨hdr, _⟩
    · rw [hc] at hcc; omega
    · exact absurd herr hne2
    · rw [hd] at hdr; cases hdr

lemma Inv.outcomes_length {cfg : Config E} {s : PoolState E} (h : Inv cfg s) :
    s.outcomes.length = (if s.ended = true then 1 else 0) := by
  cases hb : s.ended with
  | false => simp [h.hOutN hb, hb]
  | true =>
    rcases h.hOutE hb with ⟨_, ho⟩ | ⟨_, e, rest, _, ho⟩ | ⟨_, _, ho⟩ <;> simp [ho, hb]

/-! ## Claim C5 -/

/-- Configuration for C5's counterexample: `count 0`. -/
def cfgC5x : Config Nat := ⟨2, 0, fun _ => false, fun _ => 0, OnError.abort⟩

/-- C5 (counterexample): in a `count = 0` run the terminal success outcome is
delivered (once), yet `ended` never flips to `true`: the `count === 0`
shortcut calls `resolve()` directly without setting `ended`, and since
nothing is pending, no later step exists that could set it.  The claim's
conjunct "the ended flag flips false→true exactly once" is therefore false
for this run. -/
theorem C5_counterexample :
    (initRun cfgC5x).outcomes = [Outcome.success] ∧
    (initRun cfgC5x).ended = false ∧ (initRun cfgC5x).pending = [] :=
  ⟨by decide, by decide, by decide⟩

/-- C5 (amended): for every run with positive concurrency the terminal
outcome is delivered exactly once, and no delivery or launch follows it.
With `count = 0` success is delivered immediately while `ended` stays
`false` forever; with `count > 0` the delivery happens exactly when `ended`
flips: `ended` starts `false`, the number of deliveries is always `ended ? 1
: 0`, every run reaches an ended state with one delivery, and once `ended`
is set a step can neither deliver again nor launch (nor unset it). -/
theorem C5_single_delivery (cfg : Config E) (hconc : 1 ≤ cfg.concurrency) :
    (cfg.count = 0 → ∀ s, Reachable cfg s →
      s.outcomes = [Outcome.success] ∧ s.ended = false) ∧
    (0 < cfg.count → (initRun cfg).ended = false ∧
      ∀ s, Reachable cfg s →
        (s.outcomes.length = if s.ended = true then 1 else 0) ∧
        ∃ t, Star cfg s t ∧ t.ended = true ∧ t.outcomes.length = 1) ∧
    (∀ s s', Step cfg s s' → s.ended = true →
      s'.ended = true ∧ s'.outcomes = s.outcomes ∧ s'.started = s.started) := by
  refine ⟨?_, ?_, ?_⟩
  · intro h0 s hr
    have hs := reachable_frozen (by rw [initRun_count0 cfg h0]; rfl) hr
    rw [hs, initRun_count0 cfg h0]
    exact ⟨rfl, rfl⟩
  · intro hcount
    refine ⟨(initRun_state cfg hcount).2.2.2, ?_⟩
    intro s hr
    refine ⟨(reachable_inv cfg hcount hr).outcomes_length, ?_⟩
    obtain ⟨t, hstar, htp, hrt⟩ := to_stuck cfg hcount cfg.count hr (by omega)
    have hend := stuck_ended cfg hcount hconc hrt htp
    have hlen := (reachable_inv cfg hcount hrt).outcomes_length
    rw [hend] at hlen
    simp at hlen
    exact ⟨t, hstar, hend, hlen⟩
  · intro s s' hst he
    cases hst with
    | resolve i u hmem =>
      obtain ⟨h1, h2⟩ := resolveAt_frozen cfg i he
      exact ⟨resolveAt_ended_of cfg i he, h1, h2⟩

/-- Configuration for C5's witness. -/
def cfgC5w : Config Nat := ⟨1, 1, fun _ => false, fun _ => 0, OnError.abort⟩

/-- Witness for C5's amended statement on `cfgC5w`. -/
theorem C5_single_delivery_witness :
    1 ≤ cfgC5w.concurrency ∧ (initRun cfgC5w).ended = false ∧
    ((initRun cfgC5w).outcomes.length = if (initRun cfgC5w).ended = true then 1 else 0) :=
  have h := (C5_single_delivery cfgC5w (by decide)).2.1 (by decide)
  ⟨by decide, h.1, (h.2 (initRun cfgC5w) Reachable.init).1⟩

/-! ## Claim C6 -/

/-- Configuration for C6's counterexample: `concurrency 3`, `count 3`. -/
def cfgC6 : Config Nat := ⟨3, 3, fun _ => false, fun _ => (0 : Nat), OnError.drain⟩

/-- The state passed to the second recursive self-invocation of `trigger`
during the start of a `cfgC6` run: two launches done (`started = ongoing =
2`), none resolved. -/
def sC6 : PoolState Nat := launchOne (launchOne init0)

/-- C6 (counterexample): the claim's launch guard `started + ongoing ≥ count`
is not the code's.  At the dispatch invocation on `sC6` — reached from the
run's very first `trigger()` call, as the first conjunct shows — the run has
not ended, `completed < count`, `draining` is false, and `started + ongoing
= 4 ≥ 3 = count`, so by the claim no new task may be launched; but the code
tests `completed + ongoing ≥ count` (`2 < 3`) and does launch index 2,
incrementing `started`. -/
theorem C6_counterexample :
    trigger cfgC6 init0 = trigger cfgC6 sC6 ∧
    sC6.ended = false ∧ sC6.completed < cfgC6.count ∧ sC6.draining = false ∧
    cfgC6.count ≤ sC6.started + sC6.ongoing ∧
    (trigger cfgC6 sC6).started = sC6.started + 1 :=
  ⟨by decide, by decide, by decide, by decide, by decide, by decide⟩

/-- C6 (amended): on every invocation of the dispatch step in which the run
has not ended, `completed < count`, and `draining` is false: no new task is
launched exactly when `completed + ongoing ≥ count` (not `started + ongoing`)
or `ongoing ≥ concurrency` — the step returns with the state untouched;
otherwise the next unused index (`started`) is assigned, `started` and
`ongoing` are incremented, the task is launched, and the dispatch step
re-invokes itself on the new state. -/
theorem C6_dispatch_guard (cfg : Config E) (s : PoolState E)
    (he : s.ended = false) (hlt : s.completed < cfg.count) (hd : s.draining = false) :
    ((cfg.count ≤ s.completed + s.ongoing ∨ cfg.concurrency ≤ (s.ongoing : Int)) →
      trigger cfg s = s) ∧
    (s.completed + s.ongoing < cfg.count → (s.ongoing : Int) < cfg.concurrency →
      trigger cfg s = trigger cfg (launchOne s) ∧
      s.started < (trigger cfg s).started ∧
      (launchOne s).started = s.started + 1 ∧ (launchOne s).ongoing = s.ongoing + 1 ∧
      (launchOne s).pending = s.pending ++ [s.started] ∧
      (launchOne s).invoked = s.invoked ++ [s.started]) := by
  constructor
  · intro hcond
    rw [trigger_eq, if_neg (by rw [he]; simp), if_neg (by omega), if_neg (by rw [hd]; simp)]
    rcases hcond with hx | hx
    · rw [if_pos hx]
    · by_cases hco : cfg.count ≤ s.completed + s.ongoing
      · rw [if_pos hco]
      · rw [if_neg hco, if_neg (by omega)]
  · intro hco hcap
    have he' : trigger cfg s = trigger cfg (launchOne s) := by
      rw [trigger_eq, if_neg (by rw [he]; simp), if_neg (by omega),
        if_neg (by rw [hd]; simp), if_neg (by omega), if_pos hcap]
    refine ⟨he', ?_, rfl, rfl, rfl, rfl⟩
    rw [he']
    have hmono := (trigger_frame cfg (launchOne s)).2.2.2.2.1
    have hstep : s.started < (launchOne s).started := by simp [launchOne]
    omega

/-- Configuration for C6's witness. -/
def cfgC6w : Config Nat := ⟨2, 2, fun _ => false, fun _ => (0 : Nat), OnError.abort⟩

/-- Witness for C6's amended guard at the first dispatch invocation of a
`cfgC6w` run. -/
theorem C6_dispatch_guard_witness :
    trigger cfgC6w init0 = trigger cfgC6w (launchOne init0) ∧
    (init0 : PoolState Nat).started < (trigger cfgC6w init0).started :=
  have h := (C6_dispatch_guard cfgC6w init0 rfl (by decide) rfl).2 (by decide) (by decide)
  ⟨h.1, h.2.1⟩

/-! ## Claim C7 -/

/-- C7: with positive concurrency, at most `concurrency` tasks are ongoing in
every reachable state; and once `draining` is set, it stays set, no task is
ever started again, and `ongoing` only decreases (strictly, at each step). -/
theorem C7_concurrency_bound (cfg : Config E) (s : PoolState E)
    (hconc : 0 < cfg.concurrency) (hr : Reachable cfg s) :
    ((s.ongoing : Int) ≤ cfg.concurrency) ∧
    (s.draining = true → ∀ t, Star cfg s t →
      t.started = s.started ∧ t.draining = true ∧ t.ongoing ≤ s.ongoing) ∧
    (s.draining = true → ∀ s', Step cfg s s' → s'.ongoing < s.ongoing) := by
  by_cases hcount : cfg.count = 0
  · have hs := reachable_frozen (by rw [initRun_count0 cfg hcount]; rfl) hr
    refine ⟨?_, ?_, ?_⟩
    · rw [hs, initRun_count0 cfg hcount]
      show ((0 : Nat) : Int) ≤ cfg.concurrency
      push_cast
      omega
    · intro hd
      rw [hs, initRun_count0 cfg hcount] at hd
      cases hd
    · intro hd
      rw [hs, initRun_count0 cfg hcount] at hd
      cases hd
  · have hcount' : 0 < cfg.count := by omega
    have hinv := reachable_inv cfg hcount' hr
    refine ⟨?_, ?_, ?_⟩
    · have hcb := hinv.hConc
      rwa [max_eq_left (by omega : (0 : Int) ≤ cfg.concurrency)] at hcb
    · intro hd t hstar
      exact star_draining cfg hcount' hr hd hstar
    · intro hd s' hstep
      exact (step_draining cfg hinv hd hstep).2.2

/-- Configuration for C7's witness: task 0 fails under `'drain'`. -/
def cfgC7 : Config Nat := ⟨2, 3, fun i => i == 0, fun i => i, OnError.drain⟩

/-- Witness for C7 at the draining state of `cfgC7` reached after task 0
fails. -/
theorem C7_concurrency_bound_witness :
    (((resolveAt cfgC7 0 (initRun cfgC7)).ongoing : Int) ≤ cfgC7.concurrency) ∧
    (resolveAt cfgC7 0 (initRun cfgC7)).draining = true :=
  have h := C7_concurrency_bound cfgC7 (resolveAt cfgC7 0 (initRun cfgC7)) (by decide)
    (Reachable.step Reachable.init (Step.resolve 0 _ (by decide)))
  ⟨h.1, by decide⟩

end PromisePool

namespace PromisePool
variable {E : Type}

/-! ## Claim C8 -/

/-- C8: under `'continue'` with positive concurrency, every run drives all
work to completion: in every quiet reachable state (and every run reaches
one — second conjunct) each index of `[0, count)` has been invoked exactly
once (`invoked` is literally `range count`), each has resolved exactly once
(`resolvedList` is a permutation of `range count`), the number of collected
errors equals the number of failing indices, and the terminal outcome is the
aggregate of those errors — or success when none failed. -/
theorem C8_continue_all_invoked (cfg : Config E)
    (hcont : cfg.onError = OnError.continue_) (hconc : 1 ≤ cfg.concurrency) :
    (∀ s, Reachable cfg s → s.pending = [] →
      s.invoked = List.range cfg.count ∧ s.resolvedList.Perm (List.range cfg.count) ∧
      s.errors.length = ((List.range cfg.count).filter cfg.fail).length ∧
      (s.errors = [] → s.outcomes = [Outcome.success]) ∧
      (s.errors ≠ [] → s.outcomes =
        [Outcome.rejectedAggregate s.errors (aggMsg s.errors.length)])) ∧
    (∀ s, Reachable cfg s → ∃ t, Star cfg s t ∧ t.pending = []) := by
  by_cases hcount : cfg.count = 0
  · constructor
    · intro s hr _
      have hs := reachable_frozen (by rw [initRun_count0 cfg hcount]; rfl) hr
      rw [hs, initRun_count0 cfg hcount, hcount]
      exact ⟨rfl, List.Perm.refl _, rfl, fun _ => rfl, fun hne => absurd rfl hne⟩
    · intro s hr
      have hs := reachable_frozen (by rw [initRun_count0 cfg hcount]; rfl) hr
      exact ⟨s, Relation.ReflTransGen.refl, by rw [hs, initRun_count0 cfg hcount]; rfl⟩
  · have hcount' : 0 < cfg.count := by omega
    constructor
    · intro s hr hp
      have hinv := reachable_inv cfg hcount' hr
      have hend := stuck_ended cfg hcount' hconc hr hp
      have hcc : cfg.count ≤ s.completed := by
        rcases hinv.hEnded hend with hx | ⟨hab, _⟩ | ⟨hdr, _⟩
        · exact hx
        · exact absurd (hcont.symm.trans hab) (by decide)
        · exact absurd ((hinv.hDrainOnly hdr).1.symm.trans hcont) (by decide)
      have hres := hinv.res_pend
      rw [hp] at hres
      simp only [List.length_nil, Nat.add_zero] at hres
      have hcomp := hinv.hComp
      rw [if_pos hcont] at hcomp
      have hstart : s.started = cfg.count := by
        have := hinv.hStart
        omega
      have hresperm : s.resolvedList.Perm (List.range cfg.count) := by
        have hperm := hinv.hPerm
        rw [hp, List.append_nil, hstart] at hperm
        exact hperm
      refine ⟨by rw [hinv.hInvk, hstart], hresperm, ?_, ?_, ?_⟩
      · rw [hinv.hErr, List.length_map]
        exact (hresperm.filter cfg.fail).length_eq
      · intro hnil
        rcases hinv.hOutE hend with ⟨_, ho⟩ | ⟨hab, _⟩ | ⟨_, hne, _⟩
        · exact ho
        · exact absurd (hcont.symm.trans hab) (by decide)
        · exact absurd hnil hne
      · intro hne
        rcases hinv.hOutE hend with ⟨hnil, _⟩ | ⟨hab, _⟩ | ⟨_, _, ho⟩
        · exact absurd hnil hne
        · exact absurd (hcont.symm.trans hab) (by decide)
        · exact ho
    · intro s hr
      obtain ⟨t, hstar, htp, _⟩ := to_stuck cfg hcount' cfg.count hr (by omega)
      exact ⟨t, hstar, htp⟩

/-- Configuration for C8's witness: `count 2`, index 0 fails, `'continue'`. -/
def cfgC8 : Config Nat := ⟨1, 2, fun i => i == 0, fun i => i, OnError.continue_⟩

/-- Witness for C8 at the completed `cfgC8` run (task 0 fails, task 1 then
still runs): both indices invoked once, one error collected. -/
theorem C8_continue_all_invoked_witness :
    (resolveAt cfgC8 1 (resolveAt cfgC8 0 (initRun cfgC8))).invoked =
      List.range cfgC8.count ∧
    (resolveAt cfgC8 1 (resolveAt cfgC8 0 (initRun cfgC8))).errors.length =
      ((List.range cfgC8.count).filter cfgC8.fail).length :=
  have h := (C8_continue_all_invoked cfgC8 rfl (by decide)).1
    (resolveAt cfgC8 1 (resolveAt cfgC8 0 (initRun cfgC8)))
    (Reachable.step (Reachable.step Reachable.init (Step.resolve 0 _ (by decide)))
      (Step.resolve 1 _ (by decide)))
    (by decide)
  ⟨h.1, h.2.2.1⟩

/-! ## Claim C9 -/

/-- C9: with `concurrency ≤ 0` and `count > 0` the run is permanently inert:
the start-up loop `for (i = 0; i < concurrency && i < count; i++)` performs
no iteration, the `count === 0` shortcut does not apply, and with nothing
pending no resolution can ever occur — every reachable state is the initial
one, no task is invoked and no outcome is ever delivered. -/
theorem C9_nonpositive_concurrency (cfg : Config E)
    (hc : cfg.concurrency ≤ 0) (hcount : 0 < cfg.count) :
    ∀ s, Reachable cfg s →
      s = init0 ∧ s.invoked = [] ∧ s.outcomes = [] ∧ s.ended = false := by
  intro s hr
  have h1 := initRun_nonpos cfg hc (by omega)
  have hs := reachable_frozen (by rw [h1]; rfl) hr
  rw [hs, h1]
  exact ⟨rfl, rfl, rfl, rfl⟩

/-- Configuration for C9's witness: `concurrency 0`, `count 3`. -/
def cfgC9 : Config Nat := ⟨0, 3, fun _ => false, fun _ => 0, OnError.abort⟩

/-- Witness for C9 on `cfgC9`. -/
theorem C9_nonpositive_concurrency_witness :
    cfgC9.concurrency ≤ 0 ∧ 0 < cfgC9.count ∧
    (initRun cfgC9).outcomes = [] ∧ (initRun cfgC9).invoked = [] :=
  have h := C9_nonpositive_concurrency cfgC9 (by decide) (by decide)
    (initRun cfgC9) Reachable.init
  ⟨by decide, by decide, h.2.2.1, h.2.1⟩

/-! ## Claim C10 -/

/-- C10: under `'abort'` and `'drain'` (where `completed` counts only
successful resolutions) the identity `started = completed + errors.length +
ongoing` holds in every reachable state; consequently under `'drain'`, once
`draining` is set in a live state, the completion check finalizes exactly
when `ongoing` has reached 0. -/
theorem C10_noncontinue_identity (cfg : Config E) (s : PoolState E)
    (hne : cfg.onError ≠ OnError.continue_) (hr : Reachable cfg s) :
    s.started = s.completed + s.errors.length + s.ongoing ∧
    (cfg.onError = OnError.drain → s.draining = true → s.ended = false →
      ((checkCompletion cfg s).ended = true ↔ s.ongoing = 0)) := by
  by_cases hcount : cfg.count = 0
  · have hs := reachable_frozen (by rw [initRun_count0 cfg hcount]; rfl) hr
    constructor
    · rw [hs, initRun_count0 cfg hcount]
      rfl
    · intro _ hd
      rw [hs, initRun_count0 cfg hcount] at hd
      cases hd
  · have hcount' : 0 < cfg.count := by omega
    have hinv := reachable_inv cfg hcount' hr
    have hid := hinv.eq_noncont hne
    refine ⟨hid, ?_⟩
    intro _ hd hse
    constructor
    · intro hend
      unfold checkCompletion at hend
      rw [if_neg (by rw [hse]; simp)] at hend
      by_cases hfin : cfg.count ≤ s.completed ∨
          (s.draining = true ∧ s.started = (s.completed + s.errors.length) + s.ongoing ∧
            s.ongoing = 0)
      · rcases hfin with hcc | ⟨_, _, hz⟩
        · have herrne := (hinv.hDrainOnly hd).2
          have hlen : 0 < s.errors.length := by
            cases hl : s.errors with
            | nil => exact absurd hl herrne
            | cons a l => simp
          have := hinv.hStart
          omega
        · exact hz
      · rw [if_neg hfin, hse] at hend
        cases hend
    · intro hz
      exact checkCompletion_fires cfg hse (Or.inr ⟨hd, by omega, hz⟩)

/-- Configuration for C10's witness: `count 2`, index 0 fails, `'drain'`. -/
def cfgC10 : Config Nat := ⟨2, 2, fun i => i == 0, fun i => i + 5, OnError.drain⟩

/-- Witness for C10 at the draining state of `cfgC10`: the identity holds
(`2 = 0 + 1 + 1`) and, with task 1 still in flight, the completion check
does not finalize (`ongoing = 1 ≠ 0`). -/
theorem C10_noncontinue_identity_witness :
    (resolveAt cfgC10 0 (initRun cfgC10)).started =
      (resolveAt cfgC10 0 (initRun cfgC10)).completed +
      (resolveAt cfgC10 0 (initRun cfgC10)).errors.length +
      (resolveAt cfgC10 0 (initRun cfgC10)).ongoing ∧
    ((checkCompletion cfgC10 (resolveAt cfgC10 0 (initRun cfgC10))).ended = true ↔
      (resolveAt cfgC10 0 (initRun cfgC10)).ongoing = 0) :=
  have h := C10_noncontinue_identity cfgC10 (resolveAt cfgC10 0 (initRun cfgC10))
    (by decide) (Reachable.step Reachable.init (Step.resolve 0 _ (by decide)))
  ⟨h.1, h.2 rfl (by decide) (by decide)⟩

end PromisePool
